import Mathlib

/-!
# Verification of the digest pipeline and context store

A shallow embedding of the deterministic core of the productivity-agent
repository: the email processor (`cleanEmailBody`, `extractKeyInfo`,
`classifyEmail`, `buildDigest` from `src/email-processor.js`) and the context
store (`ContextManager` from `src/context-manager.js`).

JavaScript strings are modelled as `List Char`; a JS `Map` is modelled as an
insertion-ordered association list (`mapSet` keeps the position of an existing
key, as `Map.prototype.set` does); `Date.now()` values are passed in
explicitly as `Nat` arguments.
-/

set_option maxRecDepth 8000

/-- The character list of a string literal (JS strings as `List Char`). -/
def str (s : String) : List Char := s.data

/-- Decimal rendering of a number, as JS template interpolation of a number. -/
def natToChars (n : Nat) : List Char := (Nat.repr n).data

/-- JS `a || b` for a possibly-absent string: `undefined`/`null` and the empty
string (both falsy) fall through to `b`. -/
def jsOr (a : Option (List Char)) (b : List Char) : List Char :=
  match a with
  | none => b
  | some s => if s = [] then b else s

/-- Iteration of `new Set(xs)`: insert each element unless already seen. -/
def jsSetDedupAux {α : Type} [DecidableEq α] : List α → List α → List α
  | [], _ => []
  | a :: l, seen =>
    if a ∈ seen then jsSetDedupAux l seen else a :: jsSetDedupAux l (a :: seen)

/-- First-occurrence de-duplication, as JS `[...new Set(xs)]`: keeps the first
copy of each element, in order of first appearance. -/
def jsSetDedup {α : Type} [DecidableEq α] (l : List α) : List α :=
  jsSetDedupAux l []

/-- Index of the first occurrence of `a` in `l` (length of `l` if absent). -/
def firstIdx {α : Type} [DecidableEq α] : List α → α → Nat
  | [], _ => 0
  | b :: t, a => if b = a then 0 else firstIdx t a + 1

/-! ## Context store data model (`src/context-manager.js`) -/

/-- One conversation turn: `{role, content, timestamp}`. -/
structure ConversationTurn where
  role : List Char
  content : List Char
  timestamp : Nat
deriving DecidableEq

/-- The digest record produced by `buildDigest` (`src/email-processor.js`). -/
structure Digest where
  from_ : List Char
  to_ : List Char
  subject : List Char
  date : List Char
  type : List Char
  summary : List Char
  keyPoints : List (List Char)
  actionItems : List (List Char)
  dates : List (List Char)
  amounts : List (List Char)
  actionRequired : Bool
  fullBodyLength : Nat
deriving DecidableEq

/-- The object stored in the cache: `{...digest, cachedAt: Date.now()}`. -/
structure CachedDigest where
  digest : Digest
  cachedAt : Nat
deriving DecidableEq

/-- The `ContextManager` state. -/
structure ContextManager where
  emailCache : List (List Char × CachedDigest)
  activeEmailIds : List (List Char)
  conversationHistory : List ConversationTurn
  maxHistory : Nat
  maxCache : Nat
deriving DecidableEq

/-- The constructor: empty state, `maxHistory = 10`, `maxCache = 50`. -/
def ContextManager.new : ContextManager := ⟨[], [], [], 10, 50⟩

/-- JS `Map.prototype.set`: an existing key keeps its insertion position and
gets the new value; a new key is appended at the back. -/
def mapSet {α β : Type} [DecidableEq α] (m : List (α × β)) (k : α) (v : β) :
    List (α × β) :=
  if m.any (fun p => decide (p.1 = k)) then
    m.map (fun p => if p.1 = k then (k, v) else p)
  else m ++ [(k, v)]

/-- JS `Map.prototype.delete`. -/
def mapDelete {α β : Type} [DecidableEq α] (m : List (α × β)) (k : α) :
    List (α × β) :=
  m.filter (fun p => decide (p.1 ≠ k))

/-- JS `Map.prototype.get`, `none` for a missing key. -/
def mapGet {α β : Type} [DecidableEq α] (m : List (α × β)) (k : α) : Option β :=
  (m.find? (fun p => decide (p.1 = k))).map Prod.snd

/-- `cacheEmail(messageId, digest)`: evict the oldest entry if at capacity
(`emailCache.size >= maxCache`), then insert the stamped digest. -/
def ContextManager.cacheEmail (cm : ContextManager) (messageId : List Char)
    (digest : Digest) (now : Nat) : ContextManager :=
  { cm with
    emailCache :=
      mapSet
        (if cm.emailCache.length ≥ cm.maxCache then
          match cm.emailCache.head? with
          | some p => mapDelete cm.emailCache p.1
          | none => cm.emailCache
        else cm.emailCache)
        messageId ⟨digest, now⟩ }

/-- `getCachedEmail(messageId)`. -/
def ContextManager.getCachedEmail (cm : ContextManager) (messageId : List Char) :
    Option CachedDigest :=
  mapGet cm.emailCache messageId

/-- `setActiveEmails(ids)` with a list argument: plain replacement. -/
def ContextManager.setActiveEmails (cm : ContextManager)
    (ids : List (List Char)) : ContextManager :=
  { cm with activeEmailIds := ids }

/-- `addActiveEmails(ids)`: `[...new Set([...activeEmailIds, ...ids])]`. -/
def ContextManager.addActiveEmails (cm : ContextManager)
    (ids : List (List Char)) : ContextManager :=
  { cm with activeEmailIds := jsSetDedup (cm.activeEmailIds ++ ids) }

/-- `getActiveDigests()`: map active ids through the cache, dropping misses. -/
def ContextManager.getActiveDigests (cm : ContextManager) : List CachedDigest :=
  cm.activeEmailIds.filterMap (fun id => mapGet cm.emailCache id)

/-- The `while (length > max) shift()` trimming loop of `addExchange`. -/
def trimFront {α : Type} : List α → Nat → List α
  | [], _ => []
  | a :: t, maxLen => if (a :: t).length > maxLen then trimFront t maxLen else a :: t

/-- `addExchange(userMsg, agentMsg)`: push one user turn and one agent turn,
then trim from the front while the history exceeds `maxHistory * 2`. -/
def ContextManager.addExchange (cm : ContextManager)
    (userMsg agentMsg : List Char) (now1 now2 : Nat) : ContextManager :=
  { cm with
    conversationHistory :=
      trimFront
        (cm.conversationHistory ++
          [⟨str "user", userMsg, now1⟩, ⟨str "agent", agentMsg, now2⟩])
        (cm.maxHistory * 2) }

/-- The 150-character truncation used when rendering a history entry. -/
def truncate150 (content : List Char) : List Char :=
  if content.length > 150 then content.take 147 ++ str "..." else content

/-- One rendered history line: `role: content` (content truncated). -/
def fmtTurn (msg : ConversationTurn) : List Char :=
  msg.role ++ str ": " ++ truncate150 msg.content

/-- The lines pushed for the `i`-th active digest in `getContextForLLM`. -/
def digestLines (i : Nat) (d : CachedDigest) : List (List Char) :=
  [str "Email " ++ natToChars (i + 1) ++ str ": From: " ++ d.digest.from_ ++
     str " | Subject: " ++ d.digest.subject ++ str " | Type: " ++ d.digest.type,
   str "Summary: " ++ d.digest.summary.take 200] ++
  (if d.digest.actionItems.length > 0 then
    [str "Action items: " ++ List.intercalate (str "; ") d.digest.actionItems]
   else []) ++
  (if d.digest.dates.length > 0 then
    [str "Key dates: " ++ List.intercalate (str ", ") d.digest.dates]
   else []) ++
  (if d.digest.amounts.length > 0 then
    [str "Amounts: " ++ List.intercalate (str ", ") d.digest.amounts]
   else [])

/-- The "CURRENTLY DISCUSSED EMAILS" block of `getContextForLLM`. -/
def ContextManager.activeParts (cm : ContextManager) : List (List Char) :=
  if cm.getActiveDigests.length > 0 then
    str "CURRENTLY DISCUSSED EMAILS:" ::
      (cm.getActiveDigests.enum.map (fun p => digestLines p.1 p.2)).flatten
  else []

/-- The "RECENT CONVERSATION" block of `getContextForLLM`:
`conversationHistory.slice(-6)` rendered via `fmtTurn`. -/
def ContextManager.historyParts (cm : ContextManager) : List (List Char) :=
  if (cm.conversationHistory.drop (cm.conversationHistory.length - 6)).length > 0 then
    (str "\nRECENT CONVERSATION:") ::
      (cm.conversationHistory.drop (cm.conversationHistory.length - 6)).map fmtTurn
  else []

/-- `getContextForLLM()`: the pushed parts joined with newlines. -/
def ContextManager.getContextForLLM (cm : ContextManager) : List Char :=
  List.intercalate (str "\n") (cm.activeParts ++ cm.historyParts)

/-- `clear()`. -/
def ContextManager.clear (cm : ContextManager) : ContextManager :=
  { cm with emailCache := [], activeEmailIds := [], conversationHistory := [] }

/-! ## Lemmas about the store operations -/

theorem mapSet_length_le {α β : Type} [DecidableEq α] (m : List (α × β)) (k : α)
    (v : β) : (mapSet m k v).length ≤ m.length + 1 := by
  unfold mapSet
  split
  · simp
  · simp

theorem mapDelete_cons_self_length {α β : Type} [DecidableEq α] (p : α × β)
    (t : List (α × β)) : (mapDelete (p :: t) p.1).length ≤ t.length := by
  have h : mapDelete (p :: t) p.1 = t.filter (fun q => decide (q.1 ≠ p.1)) := by
    simp [mapDelete, List.filter_cons]
  rw [h]
  exact List.length_filter_le _ t

theorem cacheEmail_emailCache (cm : ContextManager) (id : List Char) (d : Digest)
    (now : Nat) :
    (cm.cacheEmail id d now).emailCache =
      mapSet
        (if cm.emailCache.length ≥ cm.maxCache then
          match cm.emailCache.head? with
          | some p => mapDelete cm.emailCache p.1
          | none => cm.emailCache
        else cm.emailCache)
        id ⟨d, now⟩ := rfl

theorem trimFront_eq_drop {α : Type} (l : List α) (m : Nat) :
    trimFront l m = l.drop (l.length - m) := by
  induction l with
  | nil => simp [trimFront]
  | cons a t ih =>
    simp only [trimFront]
    by_cases h : (a :: t).length > m
    · rw [if_pos h, ih]
      have h2 : (a :: t).length - m = (t.length - m) + 1 := by
        simp only [List.length_cons]
        simp only [List.length_cons] at h
        omega
      rw [h2, List.drop_succ_cons]
    · rw [if_neg h]
      have h2 : (a :: t).length - m = 0 := by
        simp only [List.length_cons]
        simp only [List.length_cons, gt_iff_lt, not_lt] at h
        omega
      rw [h2, List.drop_zero]

theorem jsSetDedupAux_sublist {α : Type} [DecidableEq α] :
    ∀ (l seen : List α), (jsSetDedupAux l seen).Sublist l := by
  intro l
  induction l with
  | nil => intro seen; simp [jsSetDedupAux]
  | cons a t ih =>
    intro seen
    simp only [jsSetDedupAux]
    by_cases h : a ∈ seen
    · rw [if_pos h]
      exact (ih seen).cons a
    · rw [if_neg h]
      exact (ih (a :: seen)).cons₂ a

theorem mem_jsSetDedupAux {α : Type} [DecidableEq α] :
    ∀ (l seen : List α) (x : α),
      x ∈ jsSetDedupAux l seen ↔ (x ∈ l ∧ x ∉ seen) := by
  intro l
  induction l with
  | nil => intro seen x; simp [jsSetDedupAux]
  | cons a t ih =>
    intro seen x
    simp only [jsSetDedupAux]
    by_cases h : a ∈ seen
    · rw [if_pos h, ih seen x]
      simp only [List.mem_cons]
      constructor
      · exact fun hx => ⟨Or.inr hx.1, hx.2⟩
      · rintro ⟨hx | hx, hs⟩
        · exact absurd (hx ▸ h) hs
        · exact ⟨hx, hs⟩
    · rw [if_neg h]
      simp only [List.mem_cons, ih, List.mem_cons, not_or]
      constructor
      · rintro (rfl | ⟨h1, h2, h3⟩)
        · exact ⟨Or.inl rfl, h⟩
        · exact ⟨Or.inr h1, h3⟩
      · rintro ⟨h1 | h1, h2⟩
        · exact Or.inl h1
        · by_cases hxa : x = a
          · exact Or.inl hxa
          · exact Or.inr ⟨h1, hxa, h2⟩

theorem jsSetDedupAux_nodup {α : Type} [DecidableEq α] :
    ∀ (l seen : List α), (jsSetDedupAux l seen).Nodup := by
  intro l
  induction l with
  | nil => intro seen; simp [jsSetDedupAux]
  | cons a t ih =>
    intro seen
    simp only [jsSetDedupAux]
    by_cases h : a ∈ seen
    · rw [if_pos h]; exact ih seen
    · rw [if_neg h]
      refine List.nodup_cons.2 ⟨?_, ih (a :: seen)⟩
      intro hc
      exact ((mem_jsSetDedupAux t (a :: seen) a).1 hc).2 (List.mem_cons_self a seen)

theorem jsSetDedupAux_pairwise_firstIdx {α : Type} [DecidableEq α] :
    ∀ (l seen : List α),
      (jsSetDedupAux l seen).Pairwise
        (fun x y => firstIdx l x < firstIdx l y) := by
  intro l
  induction l with
  | nil => intro seen; simp [jsSetDedupAux]
  | cons a t ih =>
    intro seen
    simp only [jsSetDedupAux]
    by_cases h : a ∈ seen
    · rw [if_pos h]
      refine List.Pairwise.imp_of_mem ?_ (ih seen)
      intro x y hx hy hlt
      have hxa : x ≠ a := fun he => ((mem_jsSetDedupAux t seen x).1 hx).2 (he ▸ h)
      have hya : y ≠ a := fun he => ((mem_jsSetDedupAux t seen y).1 hy).2 (he ▸ h)
      simp only [firstIdx, if_neg (Ne.symm hxa), if_neg (Ne.symm hya)]
      omega
    · rw [if_neg h]
      refine List.Pairwise.cons ?_ ?_
      · intro y hy
        have hya : y ≠ a := fun he =>
          ((mem_jsSetDedupAux t (a :: seen) y).1 hy).2
            (he ▸ List.mem_cons_self a seen)
        have h0 : firstIdx (a :: t) a = 0 := by simp [firstIdx]
        have h1 : firstIdx (a :: t) y = firstIdx t y + 1 := by
          simp [firstIdx, Ne.symm hya]
        omega
      · refine List.Pairwise.imp_of_mem ?_ (ih (a :: seen))
        intro x y hx hy hlt
        have hxa : x ≠ a := fun he =>
          ((mem_jsSetDedupAux t (a :: seen) x).1 hx).2
            (he ▸ List.mem_cons_self a seen)
        have hya : y ≠ a := fun he =>
          ((mem_jsSetDedupAux t (a :: seen) y).1 hy).2
            (he ▸ List.mem_cons_self a seen)
        simp only [firstIdx, if_neg (Ne.symm hxa), if_neg (Ne.symm hya)]
        omega

theorem jsSetDedup_sublist {α : Type} [DecidableEq α] (l : List α) :
    (jsSetDedup l).Sublist l :=
  jsSetDedupAux_sublist l []

theorem mem_jsSetDedup {α : Type} [DecidableEq α] (l : List α) (x : α) :
    x ∈ jsSetDedup l ↔ x ∈ l := by
  rw [jsSetDedup, mem_jsSetDedupAux]
  simp

theorem jsSetDedup_nodup {α : Type} [DecidableEq α] (l : List α) :
    (jsSetDedup l).Nodup :=
  jsSetDedupAux_nodup l []

theorem jsSetDedup_pairwise_firstIdx {α : Type} [DecidableEq α] (l : List α) :
    (jsSetDedup l).Pairwise (fun x y => firstIdx l x < firstIdx l y) :=
  jsSetDedupAux_pairwise_firstIdx l []

/-! ## Concrete scenarios used by the capacity and trimming claims -/

/-- A digest with all fields empty, used as cache payload in scenarios. -/
def dummyDigest : Digest := ⟨[], [], [], [], [], [], [], [], [], [], false, 0⟩

/-- `n` distinct message ids `id0`, `id1`, ... -/
def cacheIds (n : Nat) : List (List Char) :=
  (List.range n).map (fun i => str "id" ++ natToChars i)

/-- Cache each id in turn into the store. -/
def insertAll (cm : ContextManager) (ids : List (List Char)) : ContextManager :=
  ids.foldl (fun c id => c.cacheEmail id dummyDigest 0) cm

/-- Record the exchanges `(u0, a0), ..., (u10, a10)` into a fresh store. -/
def exchanges11 : List (List Char × List Char) :=
  (List.range 11).map (fun i => (str "u" ++ natToChars i, str "a" ++ natToChars i))

/-- The store after recording eleven exchanges (`maxHistory = 10`). -/
def cmAfter11 : ContextManager :=
  exchanges11.foldl (fun cm p => cm.addExchange p.1 p.2 0 0) ContextManager.new

/-- C1: `cacheEmail` keeps the digest cache within `maxCache` entries for any
store within capacity, and inserting a 51st distinct id into a fresh store
(whose `maxCache` is 50) leaves exactly 50 entries, with the very
first-inserted id evicted (strict FIFO by insertion order) and all other ids
present. -/
theorem C1_cache_capacity_fifo :
    (∀ (cm : ContextManager) (id : List Char) (d : Digest) (now : Nat),
        1 ≤ cm.maxCache → cm.emailCache.length ≤ cm.maxCache →
        (cm.cacheEmail id d now).emailCache.length ≤ cm.maxCache) ∧
    ((insertAll ContextManager.new (cacheIds 51)).emailCache.length = 50 ∧
     str "id0" ∉ (insertAll ContextManager.new (cacheIds 51)).emailCache.map Prod.fst ∧
     ∀ id ∈ (cacheIds 51).drop 1,
       id ∈ (insertAll ContextManager.new (cacheIds 51)).emailCache.map Prod.fst) := by
  constructor
  · intro cm id d now h1 h2
    rw [cacheEmail_emailCache]
    rcases hEq : cm.emailCache with _ | ⟨p, t⟩
    · rw [if_neg (by simp only [List.length_nil]; omega)]
      simp [mapSet]
      omega
    · by_cases hc : (p :: t).length ≥ cm.maxCache
      · rw [if_pos hc]
        simp only [List.head?_cons]
        have h3 := mapDelete_cons_self_length p t
        have h4 := mapSet_length_le (mapDelete (p :: t) p.1) id
          (⟨d, now⟩ : CachedDigest)
        have h5 : t.length + 1 ≤ cm.maxCache := by
          rw [hEq] at h2
          simpa using h2
        omega
      · rw [if_neg hc]
        have h4 := mapSet_length_le (p :: t) id (⟨d, now⟩ : CachedDigest)
        simp only [ge_iff_le, not_le] at hc
        simp only [List.length_cons] at h4 hc
        omega
  · refine ⟨by decide, by decide, by decide⟩

/-- C1 witness: caching into a fresh store keeps the cache within capacity. -/
theorem C1_cache_capacity_fifo_witness :
    ((ContextManager.new).cacheEmail (str "a") dummyDigest 0).emailCache.length ≤
      (ContextManager.new).maxCache :=
  C1_cache_capacity_fifo.1 ContextManager.new (str "a") dummyDigest 0
    (by decide) (by decide)

/-- C4: `addExchange` appends exactly one user turn followed by one agent turn
(with the supplied timestamps) and then trims from the front until the history
has at most `2 * maxHistory` entries; recording 11 exchanges into a fresh store
(`maxHistory = 10`) leaves exactly 20 entries with the first exchange's two
entries gone. -/
theorem C4_record_exchange :
    (∀ (cm : ContextManager) (u a : List Char) (t1 t2 : Nat),
        (cm.addExchange u a t1 t2).conversationHistory =
          (cm.conversationHistory ++
            [(⟨str "user", u, t1⟩ : ConversationTurn),
             (⟨str "agent", a, t2⟩ : ConversationTurn)]).drop
            ((cm.conversationHistory.length + 2) - 2 * cm.maxHistory) ∧
        (cm.addExchange u a t1 t2).conversationHistory.length ≤
          2 * cm.maxHistory) ∧
    (cmAfter11.conversationHistory.length = 20 ∧
     str "u0" ∉ cmAfter11.conversationHistory.map ConversationTurn.content ∧
     str "a0" ∉ cmAfter11.conversationHistory.map ConversationTurn.content ∧
     cmAfter11.conversationHistory.head? = some ⟨str "user", str "u1", 0⟩) := by
  constructor
  · intro cm u a t1 t2
    have he : (cm.addExchange u a t1 t2).conversationHistory =
        trimFront
          (cm.conversationHistory ++
            [(⟨str "user", u, t1⟩ : ConversationTurn),
             (⟨str "agent", a, t2⟩ : ConversationTurn)])
          (cm.maxHistory * 2) := rfl
    rw [he, trimFront_eq_drop]
    constructor
    · congr 1
      simp only [List.length_append, List.length_cons, List.length_nil]
      omega
    · simp only [List.length_drop, List.length_append, List.length_cons,
        List.length_nil]
      omega
  · exact ⟨by decide, by decide, by decide, by decide⟩

/-- C5 counterexample: `setActiveEmails` does not de-duplicate — passing a
list with a repeated id leaves `activeIds` with a duplicate. -/
theorem C5_set_active_counterexample :
    ¬ (((ContextManager.new).setActiveEmails
          [str "a", str "a"]).activeEmailIds.Nodup) := by
  decide

/-- C5 amended: `addActiveEmails` always leaves `activeIds` duplicate-free,
keeping exactly the first occurrence of each id in the order of first
appearance within the appended sequence, while `setActiveEmails` replaces
`activeIds` with the given list verbatim (so input duplicates persist). -/
theorem C5_active_ids_dedup (cm : ContextManager) (ids : List (List Char)) :
    (cm.addActiveEmails ids).activeEmailIds =
        jsSetDedup (cm.activeEmailIds ++ ids) ∧
    (cm.addActiveEmails ids).activeEmailIds.Nodup ∧
    (cm.addActiveEmails ids).activeEmailIds.Sublist
        (cm.activeEmailIds ++ ids) ∧
    (∀ x, x ∈ (cm.addActiveEmails ids).activeEmailIds ↔
        x ∈ cm.activeEmailIds ++ ids) ∧
    (cm.addActiveEmails ids).activeEmailIds.Pairwise
        (fun x y => firstIdx (cm.activeEmailIds ++ ids) x <
          firstIdx (cm.activeEmailIds ++ ids) y) ∧
    (cm.setActiveEmails ids).activeEmailIds = ids :=
  ⟨rfl, jsSetDedup_nodup _, jsSetDedup_sublist _,
   fun x => mem_jsSetDedup _ x, jsSetDedup_pairwise_firstIdx _, rfl⟩

/-- C9: `getContextForLLM` returns the empty string when both the active-digest
list and the history are empty (in particular on a cleared store), and when the
history is non-empty it renders exactly the last at-most-6 history entries, a
suffix of the history, each as `role: content` with content capped at 150
characters (147 plus `...` when longer). -/
theorem C9_render_context (cm : ContextManager) :
    (cm.getActiveDigests = [] → cm.conversationHistory = [] →
      cm.getContextForLLM = []) ∧
    (cm.clear.getContextForLLM = []) ∧
    (cm.conversationHistory ≠ [] →
      cm.getContextForLLM =
        List.intercalate (str "\n")
          (cm.activeParts ++ (str "\nRECENT CONVERSATION:") ::
            (cm.conversationHistory.drop
              (cm.conversationHistory.length - 6)).map fmtTurn) ∧
      (cm.conversationHistory.drop
          (cm.conversationHistory.length - 6)).length ≤ 6 ∧
      (cm.conversationHistory.drop (cm.conversationHistory.length - 6)) <:+
        cm.conversationHistory ∧
      (∀ t ∈ cm.conversationHistory.drop (cm.conversationHistory.length - 6),
        fmtTurn t = t.role ++ str ": " ++ truncate150 t.content ∧
        (truncate150 t.content).length ≤ 150 ∧
        (t.content.length > 150 →
          truncate150 t.content = t.content.take 147 ++ str "..."))) := by
  have key : ∀ (cmx : ContextManager), cmx.getActiveDigests = [] →
      cmx.conversationHistory = [] → cmx.getContextForLLM = [] := by
    intro cmx h1 h2
    have ha : cmx.activeParts = [] := by
      unfold ContextManager.activeParts
      rw [h1]
      simp
    have hh : cmx.historyParts = [] := by
      unfold ContextManager.historyParts
      rw [h2]
      simp
    have hg : cmx.getContextForLLM =
        List.intercalate (str "\n") (cmx.activeParts ++ cmx.historyParts) := rfl
    rw [hg, ha, hh]
    decide
  refine ⟨key cm, key cm.clear rfl rfl, ?_⟩
  intro h3
  have hlen : 0 < cm.conversationHistory.length := List.length_pos.2 h3
  have hrl : (cm.conversationHistory.drop
      (cm.conversationHistory.length - 6)).length =
      cm.conversationHistory.length -
        (cm.conversationHistory.length - 6) := List.length_drop _ _
  have hpos : (cm.conversationHistory.drop
      (cm.conversationHistory.length - 6)).length > 0 := by
    rw [hrl]
    omega
  refine ⟨?_, ?_, List.drop_suffix _ _, ?_⟩
  · have hh : cm.historyParts = (str "\nRECENT CONVERSATION:") ::
        (cm.conversationHistory.drop
          (cm.conversationHistory.length - 6)).map fmtTurn := by
      unfold ContextManager.historyParts
      rw [if_pos hpos]
    have hg : cm.getContextForLLM =
        List.intercalate (str "\n") (cm.activeParts ++ cm.historyParts) := rfl
    rw [hg, hh]
  · rw [hrl]
    omega
  · intro t _
    refine ⟨rfl, ?_, ?_⟩
    · unfold truncate150
      by_cases hg : t.content.length > 150
      · rw [if_pos hg]
        have he : (str "...").length = 3 := rfl
        simp only [List.length_append, List.length_take, he]
        omega
      · rw [if_neg hg]
        omega
    · intro hg
      unfold truncate150
      rw [if_pos hg]

/-- A store holding seven history turns, one per timestamp, each with a
160-character content. -/
def cmWithHistory : ContextManager :=
  { ContextManager.new with
    conversationHistory :=
      (List.range 7).map (fun i => ⟨str "user", List.replicate 160 'x', i⟩) }

/-- C9 witness: a cleared fresh store renders to the empty string, and a store
with seven history entries renders at most the last six. -/
theorem C9_render_context_witness :
    ContextManager.new.getContextForLLM = [] ∧
    ContextManager.new.clear.getContextForLLM = [] ∧
    (cmWithHistory.conversationHistory.drop
        (cmWithHistory.conversationHistory.length - 6)).length ≤ 6 :=
  ⟨(C9_render_context ContextManager.new).1 rfl rfl,
   (C9_render_context ContextManager.new).2.1,
   ((C9_render_context cmWithHistory).2.2 (by decide)).2.1⟩

/-- C10: re-caching an id that is already present while the cache is exactly at
capacity still evicts the oldest entry first: if the id is not the oldest key,
an unrelated entry (the oldest) is removed and the re-cached id keeps its
original position; if the id is the oldest key itself, it is evicted and
re-appended at the back. -/
theorem C10_recache_at_capacity (cm : ContextManager) (k0 : List Char)
    (v0 : CachedDigest) (rest : List (List Char × CachedDigest))
    (id : List Char) (d : Digest) (now : Nat)
    (hEq : cm.emailCache = (k0, v0) :: rest)
    (hNodup : (cm.emailCache.map Prod.fst).Nodup)
    (hCap : cm.emailCache.length = cm.maxCache)
    (hMem : id ∈ cm.emailCache.map Prod.fst) :
    (cm.cacheEmail id d now).emailCache =
      (if id = k0 then rest ++ [(id, (⟨d, now⟩ : CachedDigest))]
       else rest.map (fun p =>
         if p.1 = id then (id, (⟨d, now⟩ : CachedDigest)) else p)) ∧
    (id ≠ k0 →
      k0 ∉ ((cm.cacheEmail id d now).emailCache.map Prod.fst)) := by
  have hk0rest : k0 ∉ rest.map Prod.fst := by
    rw [hEq, List.map_cons] at hNodup
    exact (List.nodup_cons.1 hNodup).1
  have hdel : mapDelete ((k0, v0) :: rest) k0 = rest := by
    unfold mapDelete
    rw [List.filter_cons]
    have hfalse : (decide ((k0, v0).1 ≠ k0)) = false := by simp
    rw [hfalse]
    simp only [Bool.false_eq_true, if_false]
    apply List.filter_eq_self.2
    intro p hp
    simp only [decide_eq_true_eq]
    intro hc
    exact hk0rest (hc ▸ List.mem_map_of_mem Prod.fst hp)
  have hCap' : cm.emailCache.length ≥ cm.maxCache := hCap.ge
  have hmain : (cm.cacheEmail id d now).emailCache =
      mapSet rest id ⟨d, now⟩ := by
    rw [cacheEmail_emailCache, if_pos hCap', hEq]
    simp only [List.head?_cons]
    rw [hdel]
  by_cases hid : id = k0
  · refine ⟨?_, fun h => absurd hid h⟩
    rw [hmain, if_pos hid]
    subst hid
    have hany : ¬ ((rest.any fun p => decide (p.1 = id)) = true) := by
      intro hc
      simp only [List.any_eq_true, decide_eq_true_eq] at hc
      obtain ⟨p, hp, hpk⟩ := hc
      exact hk0rest (hpk ▸ List.mem_map_of_mem Prod.fst hp)
    unfold mapSet
    rw [if_neg hany]
  · have hidrest : id ∈ rest.map Prod.fst := by
      rw [hEq, List.map_cons] at hMem
      rcases List.mem_cons.1 hMem with h | h
      · exact absurd h hid
      · exact h
    have hset : mapSet rest id (⟨d, now⟩ : CachedDigest) =
        rest.map (fun p =>
          if p.1 = id then (id, (⟨d, now⟩ : CachedDigest)) else p) := by
      have hany : (rest.any fun p => decide (p.1 = id)) = true := by
        obtain ⟨q, hq, hqk⟩ := List.mem_map.1 hidrest
        exact List.any_eq_true.2 ⟨q, hq, by simp [hqk]⟩
      unfold mapSet
      rw [if_pos hany]
    refine ⟨by rw [hmain, if_neg hid, hset], ?_⟩
    intro _ hk
    rw [hmain, hset, List.map_map] at hk
    obtain ⟨q, hq, hqk⟩ := List.mem_map.1 hk
    by_cases hq1 : q.1 = id
    · simp only [Function.comp, hq1, if_pos] at hqk
      exact hid hqk
    · simp only [Function.comp, hq1, if_neg] at hqk
      exact hk0rest (hqk ▸ List.mem_map_of_mem Prod.fst hq)

/-- A store at capacity two, holding ids `a` (oldest) and `b`. -/
def cmTwo : ContextManager :=
  { ContextManager.new with
    maxCache := 2,
    emailCache := [(str "a", ⟨dummyDigest, 0⟩), (str "b", ⟨dummyDigest, 0⟩)] }

/-- C10 witness: re-caching the already-present id `b` at capacity evicts the
unrelated oldest entry `a`, and `b` keeps its position with the new stamp. -/
theorem C10_recache_at_capacity_witness :
    (cmTwo.cacheEmail (str "b") dummyDigest 7).emailCache =
      [(str "b", (⟨dummyDigest, 7⟩ : CachedDigest))] := by
  have h := (C10_recache_at_capacity cmTwo (str "a") ⟨dummyDigest, 0⟩
    [(str "b", ⟨dummyDigest, 0⟩)] (str "b") dummyDigest 7 rfl (by decide) rfl
    (by decide)).1
  rw [h]
  decide

/-! ## Email processor (`src/email-processor.js`)

The regexes of the source are hand-compiled into executable matchers over
`List Char`.  Quantifiers in the source patterns only ever apply to single
character classes or to fixed groups, so a small engine with character-class
repetition, case-insensitive literals, literal alternations and word
boundaries covers the date/keyword patterns; the two amount alternatives and
the replacement patterns are compiled to dedicated matchers.  Matchers return
`(consumed, rest)` candidate splits in the engine's backtracking priority
order (greedy first), and a fuelled scanner reproduces `String.match` with the
`g` flag: leftmost match, then continue after it. -/

/-- JS regex class `\w` = `[A-Za-z0-9_]`. -/
def isWordChar (c : Char) : Bool :=
  (decide ('a' ≤ c) && decide (c ≤ 'z')) ||
  (decide ('A' ≤ c) && decide (c ≤ 'Z')) ||
  (decide ('0' ≤ c) && decide (c ≤ '9')) || c == '_'

/-- JS regex class `\d`. -/
def isDigitChar (c : Char) : Bool := decide ('0' ≤ c) && decide (c ≤ '9')

/-- JS regex class `\s` (ASCII whitespace plus no-break space). -/
def isSpaceChar (c : Char) : Bool :=
  c == ' ' || c == '\t' || c == '\n' || c == '\r' || c == '\x0b' ||
  c == '\x0c' || c == ' '

/-- Case-insensitive prefix test: `pat` (given lower-case) begins `s`. -/
def ciIsPrefix : List Char → List Char → Bool
  | [], _ => true
  | _ :: _, [] => false
  | p :: ps, c :: cs => (p == c.toLower) && ciIsPrefix ps cs

/-- The regex fragments appearing in the date/keyword patterns. -/
inductive RE where
  | cls (p : Char → Bool) (lo : Nat) (hi : Option Nat)
  | litCI (s : List Char)
  | altLit (ss : List (List Char))
  | wordB

/-- Whether an optional neighbouring character is a word character (`\b` treats
the outside of the string as non-word). -/
def isWordOpt (o : Option Char) : Bool :=
  match o with
  | some c => isWordChar c
  | none => false

/-- All ways one fragment can match at the head of `s`, in the engine's
priority order; `prev` is the character before the current position. -/
def matchOne (re : RE) (prev : Option Char) (s : List Char) :
    List (List Char × List Char) :=
  match re with
  | .cls p lo hi =>
    let maxRun := (s.takeWhile p).length
    let hiv := match hi with | none => maxRun | some h => min h maxRun
    if hiv < lo then []
    else (List.range (hiv + 1 - lo)).map
      (fun j => (s.take (hiv - j), s.drop (hiv - j)))
  | .litCI l => if ciIsPrefix l s then [(s.take l.length, s.drop l.length)] else []
  | .altLit ss => ss.filterMap (fun l =>
      if ciIsPrefix l s then some (s.take l.length, s.drop l.length) else none)
  | .wordB => if isWordOpt prev != isWordOpt s.head? then [([], s)] else []

/-- All ways a fragment sequence can match at the head of `s`, leftmost-greedy
(backtracking order). -/
def matchSeq : List RE → Option Char → List Char → List (List Char × List Char)
  | [], _, s => [([], s)]
  | r :: rs, prev, s =>
    (matchOne r prev s).flatMap (fun pr =>
      (matchSeq rs (if pr.1 = [] then prev else pr.1.getLast?) pr.2).map
        (fun pr2 => (pr.1 ++ pr2.1, pr2.2)))

/-- The first (highest-priority) match of a pattern at the head of `s`. -/
def reMatcher (pat : List RE) :
    Option Char → List Char → Option (List Char × List Char) :=
  fun prev s => (matchSeq pat prev s).head?

/-- Fuelled global scan, as `String.match(/re/g)`: at each position try the
matcher; on a match emit it and continue after it (one step forward on an
empty match), otherwise advance one character. -/
def scanA : Nat → (Option Char → List Char → Option (List Char × List Char)) →
    Option Char → List Char → List (List Char)
  | 0, _, _, _ => []
  | _ + 1, mAt, prev, [] =>
    (match mAt prev [] with
     | some pr => [pr.1]
     | none => [])
  | fuel + 1, mAt, prev, c :: cs =>
    match mAt prev (c :: cs) with
    | some pr =>
      if pr.1 = [] then pr.1 :: scanA fuel mAt (some c) cs
      else pr.1 :: scanA fuel mAt pr.1.getLast? pr.2
    | none => scanA fuel mAt (some c) cs

/-- `s.match(re)` with the global flag, as the list of matched substrings. -/
def jsMatchAll
    (mAt : Option Char → List Char → Option (List Char × List Char))
    (s : List Char) : List (List Char) :=
  scanA (s.length + 1) mAt none s

/-- Month-name prefixes of the textual date patterns. -/
def monthLits : List (List Char) :=
  [str "jan", str "feb", str "mar", str "apr", str "may", str "jun",
   str "jul", str "aug", str "sep", str "oct", str "nov", str "dec"]

/-- Weekday names of the fourth date pattern. -/
def weekdayLits : List (List Char) :=
  [str "monday", str "tuesday", str "wednesday", str "thursday", str "friday",
   str "saturday", str "sunday"]

/-- Relative date terms of the fifth date pattern. -/
def relativeLits : List (List Char) :=
  [str "today", str "tomorrow", str "next week", str "this week"]

/-- `\b\d{1,2}\s+(jan|...|dec)\w*\s*,?\s*\d{2,4}\b` (gi). -/
def datePattern1 : List RE :=
  [.wordB, .cls isDigitChar 1 (some 2), .cls isSpaceChar 1 none,
   .altLit monthLits, .cls isWordChar 0 none, .cls isSpaceChar 0 none,
   .cls (fun c => c == ',') 0 (some 1), .cls isSpaceChar 0 none,
   .cls isDigitChar 2 (some 4), .wordB]

/-- `\b(jan|...|dec)\w*\s+\d{1,2}\s*,?\s*\d{2,4}\b` (gi). -/
def datePattern2 : List RE :=
  [.wordB, .altLit monthLits, .cls isWordChar 0 none, .cls isSpaceChar 1 none,
   .cls isDigitChar 1 (some 2), .cls isSpaceChar 0 none,
   .cls (fun c => c == ',') 0 (some 1), .cls isSpaceChar 0 none,
   .cls isDigitChar 2 (some 4), .wordB]

/-- `\b\d{1,2}\/\d{1,2}\/\d{2,4}\b` (g). -/
def datePattern3 : List RE :=
  [.wordB, .cls isDigitChar 1 (some 2), .cls (fun c => c == '/') 1 (some 1),
   .cls isDigitChar 1 (some 2), .cls (fun c => c == '/') 1 (some 1),
   .cls isDigitChar 2 (some 4), .wordB]

/-- `\b(monday|...|sunday)\b` (gi). -/
def datePattern4 : List RE := [.wordB, .altLit weekdayLits, .wordB]

/-- `\b(today|tomorrow|next week|this week)\b` (gi). -/
def datePattern5 : List RE := [.wordB, .altLit relativeLits, .wordB]

/-- The five date pattern families, in source order. -/
def datePatterns : List (List RE) :=
  [datePattern1, datePattern2, datePattern3, datePattern4, datePattern5]

/-- The currency symbols of the first amount alternative. -/
def isCurrencyChar (c : Char) : Bool :=
  c == '₹' || c == '$' || c == '€' || c == '£'

/-- The class `[\d,]`. -/
def isDigitComma (c : Char) : Bool := isDigitChar c || c == ','

/-- `(?:\.\d{2})?` taken greedily: a dot followed by exactly two digits. -/
def optDecimal (s : List Char) : Option (List Char × List Char) :=
  match s with
  | '.' :: d1 :: d2 :: rest =>
    if isDigitChar d1 && isDigitChar d2 then some (['.', d1, d2], rest) else none
  | _ => none

/-- First amount alternative `[₹$€£]\s?[\d,]+(?:\.\d{2})?` at the head of `s`
(greedy, with the `\s?` backtrack). -/
def matchAmount1 (s : List Char) : Option (List Char × List Char) :=
  match s with
  | [] => none
  | c :: rest =>
    if isCurrencyChar c then
      let tryFrom := fun (pre : List Char) (t : List Char) =>
        let run := t.takeWhile isDigitComma
        if run = [] then none
        else
          match optDecimal (t.drop run.length) with
          | some (dec, rest2) => some (pre ++ run ++ dec, rest2)
          | none => some (pre ++ run, t.drop run.length)
      match rest with
      | sp :: rest2 =>
        if isSpaceChar sp then
          match tryFrom [c, sp] rest2 with
          | some r => some r
          | none => tryFrom [c] rest
        else tryFrom [c] rest
      | [] => none
    else none

/-- The currency codes of the second amount alternative (lower-cased). -/
def currencyCodes : List (List Char) :=
  [str "usd", str "inr", str "eur", str "gbp"]

/-- `(?:USD|INR|EUR|GBP)` case-insensitively at the head of `s`. -/
def matchCode (s : List Char) : Option (List Char × List Char) :=
  (currencyCodes.filterMap (fun code =>
    if ciIsPrefix code s then some (s.take 3, s.drop 3) else none)).head?

/-- `\s?(?:USD|...)` greedily (space taken first when it leads to a match). -/
def matchSpCode (s : List Char) : Option (List Char × List Char) :=
  match s with
  | [] => none
  | c :: rest =>
    if isSpaceChar c then
      match matchCode rest with
      | some pr => some (c :: pr.1, pr.2)
      | none => matchCode s
    else matchCode s

/-- `(?:\.\d{2})?\s?(?:USD|...)` with the optional decimal backtrack. -/
def matchTailAmount (s : List Char) : Option (List Char × List Char) :=
  match optDecimal s with
  | some (dec, rest) =>
    (match matchSpCode rest with
     | some pr => some (dec ++ pr.1, pr.2)
     | none => matchSpCode s)
  | none => matchSpCode s

/-- Candidate expansions of `(?:,\d{3})*`, most iterations first. -/
def groupChain : Nat → List Char → List (List Char × List Char)
  | 0, s => [([], s)]
  | fuel + 1, s =>
    (match s with
     | ',' :: d1 :: d2 :: d3 :: rest =>
       if isDigitChar d1 && isDigitChar d2 && isDigitChar d3 then
         (groupChain fuel rest).map
           (fun pr => (',' :: d1 :: d2 :: d3 :: pr.1, pr.2))
       else []
     | _ => []) ++ [([], s)]

/-- Second amount alternative `\d+(?:,\d{3})*(?:\.\d{2})?\s?(?:USD|INR|EUR|GBP)`
at the head of `s`. -/
def matchAmount2 (s : List Char) : Option (List Char × List Char) :=
  let run := s.takeWhile isDigitChar
  if run = [] then none
  else
    ((groupChain (s.drop run.length).length (s.drop run.length)).filterMap
      (fun pr =>
        match matchTailAmount pr.2 with
        | some pr2 => some (run ++ pr.1 ++ pr2.1, pr2.2)
        | none => none)).head?

/-- The full amount regex: first alternative, then the second. -/
def matchAmountAt (s : List Char) : Option (List Char × List Char) :=
  match matchAmount1 s with
  | some r => some r
  | none => matchAmount2 s

/-! ### `cleanEmailBody` -/

/-- The URL char class `[^\s)>\]]`. -/
def urlAllowed (c : Char) : Bool :=
  !(isSpaceChar c || c == ')' || c == '>' || c == ']')

/-- Length of the match of `https?:\/\/[^\s)>\]]+` (gi) at the head of `s`. -/
def matchURLAt (s : List Char) : Option Nat :=
  match
    (if ciIsPrefix (str "https://") s then some 8
     else if ciIsPrefix (str "http://") s then some 7
     else none) with
  | none => none
  | some k =>
    let run := ((s.drop k).takeWhile urlAllowed).length
    if run = 0 then none else some (k + run)

/-- `replace(/https?:\/\/[^\s)>\]]+/gi, '[link]')` (fuelled scan). -/
def replaceURLs : Nat → List Char → List Char
  | 0, _ => []
  | _ + 1, [] => []
  | fuel + 1, c :: cs =>
    match matchURLAt (c :: cs) with
    | some n => str "[link]" ++ replaceURLs fuel ((c :: cs).drop n)
    | none => c :: replaceURLs fuel cs

/-- Drop the rest of the current line, keeping the newline (`.*$` removal). -/
def dropLineFrom (s : List Char) : List Char :=
  s.dropWhile (fun c => !(c == '\n'))

/-- Fuelled `replace(/trigger.*$/gim, '')`: wherever the trigger matches,
remove from there to the end of that line and continue. -/
def removeToEOL : Nat → (List Char → Option Nat) → List Char → List Char
  | 0, _, _ => []
  | _ + 1, _, [] => []
  | fuel + 1, trig, c :: cs =>
    match trig (c :: cs) with
    | some t => removeToEOL fuel trig (dropLineFrom ((c :: cs).drop t))
    | none => c :: removeToEOL fuel trig cs

/-- Trigger for a case-insensitive literal pattern prefix. -/
def litTrigger (lit : List Char) (s : List Char) : Option Nat :=
  if ciIsPrefix lit s then some lit.length else none

/-- Whether `lit` occurs case-insensitively in `s` before the next newline
(`.` does not cross lines). -/
def lineHasCI (lit : List Char) : Nat → List Char → Bool
  | 0, _ => false
  | fuel + 1, s =>
    match s with
    | [] => false
    | c :: cs =>
      if ciIsPrefix lit (c :: cs) then true
      else if c == '\n' then false
      else lineHasCI lit fuel cs

/-- Trigger for `privacy policy.*terms of service.*$`. -/
def privacyTrigger (s : List Char) : Option Nat :=
  if ciIsPrefix (str "privacy policy") s then
    if lineHasCI (str "terms of service") (s.length + 1) (s.drop 14) then
      some 14
    else none
  else none

/-- Trigger for `©\s*\d{4}.*$` (the `\s*` may cross newlines). -/
def copyrightTrigger (s : List Char) : Option Nat :=
  match s with
  | [] => none
  | c :: rest =>
    if c == '©' then
      let ws := (rest.takeWhile isSpaceChar).length
      if ((rest.drop ws).takeWhile isDigitChar).length ≥ 4 then
        some (1 + ws + 4)
      else none
    else none

/-- The street words of the trailing-address pattern. -/
def streetLits : List (List Char) :=
  [str "amphitheatre", str "street", str "avenue", str "road", str "blvd"]

/-- Trigger for `\d{4}\s+(amphitheatre|street|avenue|road|blvd).*$`. -/
def addressTrigger (s : List Char) : Option Nat :=
  if (s.take 4).length = 4 && (s.take 4).all isDigitChar then
    let ws := ((s.drop 4).takeWhile isSpaceChar).length
    if ws ≥ 1 then
      match (streetLits.filterMap (fun lit =>
        if ciIsPrefix lit ((s.drop 4).drop ws) then some lit.length
        else none)).head? with
      | some n => some (4 + ws + n)
      | none => none
    else none
  else none

/-- The nine footer patterns, in source order. -/
def footerTriggers : List (List Char → Option Nat) :=
  [litTrigger (str "unsubscribe"),
   litTrigger (str "you received this email because"),
   litTrigger (str "to stop receiving"),
   litTrigger (str "view this email in your browser"),
   litTrigger (str "click here to unsubscribe"),
   litTrigger (str "manage your preferences"),
   privacyTrigger, copyrightTrigger, addressTrigger]

/-- Apply the nine footer replacements one after the other.  The fuel bounds
every scan; each stage only removes text, so the raw body's length suffices. -/
def applyFooters (fuel : Nat) (s : List Char) : List Char :=
  footerTriggers.foldl (fun acc trig => removeToEOL fuel trig acc) s

/-- Split at newlines (every `\n` separates, as JS `split('\n')`). -/
def splitNl : List Char → List (List Char)
  | [] => [[]]
  | c :: cs =>
    if c = '\n' then [] :: splitNl cs
    else
      match splitNl cs with
      | [] => [[c]]
      | l :: ls => (c :: l) :: ls

/-- `replace(/^>.*$/gm, '')`: blank out every line starting with `>`. -/
def removeQuoted (s : List Char) : List Char :=
  List.intercalate ['\n']
    ((splitNl s).map (fun l => if l.head? = some '>' then [] else l))

/-- Trigger for `on\s+\w+,\s+\w+\s+\d+.*wrote:.*$` (gim); the `\s+` runs may
cross newlines, the `.*wrote:` part stays within the line of the digits. -/
def wroteTrigger (s : List Char) : Option Nat :=
  if ciIsPrefix (str "on") s then
    let r1 := s.drop 2
    let ws1 := (r1.takeWhile isSpaceChar).length
    let r2 := r1.drop ws1
    let w1 := (r2.takeWhile isWordChar).length
    if ws1 ≥ 1 && w1 ≥ 1 then
      match r2.drop w1 with
      | ',' :: r4 =>
        let ws2 := (r4.takeWhile isSpaceChar).length
        let r5 := r4.drop ws2
        let w2 := (r5.takeWhile isWordChar).length
        let r6 := r5.drop w2
        let ws3 := (r6.takeWhile isSpaceChar).length
        let r7 := r6.drop ws3
        let d1 := (r7.takeWhile isDigitChar).length
        if ws2 ≥ 1 && w2 ≥ 1 && ws3 ≥ 1 && d1 ≥ 1 then
          if lineHasCI (str "wrote:") ((r7.drop d1).length + 1) (r7.drop d1) then
            some (2 + ws1 + w1 + 1 + ws2 + w2 + ws3 + d1)
          else none
        else none
      | _ => none
    else none
  else none

/-- `replace(/\n{3,}/g, '\n\n')` (fuelled scan over newline runs). -/
def collapseNewlines : Nat → List Char → List Char
  | 0, _ => []
  | _ + 1, [] => []
  | fuel + 1, c :: cs =>
    if c = '\n' then
      (if 1 + (cs.takeWhile (fun x => x == '\n')).length ≥ 3 then str "\n\n"
       else '\n' :: cs.takeWhile (fun x => x == '\n')) ++
        collapseNewlines fuel (cs.dropWhile (fun x => x == '\n'))
    else c :: collapseNewlines fuel cs

/-- The class `[ \t]`. -/
def isHSpace (c : Char) : Bool := c == ' ' || c == '\t'

/-- `replace(/[ \t]{2,}/g, ' ')` (fuelled scan over horizontal-space runs). -/
def collapseSpaces : Nat → List Char → List Char
  | 0, _ => []
  | _ + 1, [] => []
  | fuel + 1, c :: cs =>
    if isHSpace c then
      (if 1 + (cs.takeWhile isHSpace).length ≥ 2 then [' ']
       else [c]) ++ collapseSpaces fuel (cs.dropWhile isHSpace)
    else c :: collapseSpaces fuel cs

/-- JS `String.prototype.trim`. -/
def trimBoth (s : List Char) : List Char :=
  ((s.dropWhile isSpaceChar).reverse.dropWhile isSpaceChar).reverse

/-- `cleanEmailBody(rawBody)`: URL replacement, footer stripping, quoted-line
blanking, attribution-line stripping, whitespace collapsing, trim.  No stage
ever lengthens the text (a URL match has at least 8 characters, `[link]` six),
so the raw body's length bounds every fuelled scan. -/
def cleanEmailBody (rawBody : Option (List Char)) : List Char :=
  match rawBody with
  | none => []
  | some s =>
    if s = [] then []
    else
      trimBoth
        (collapseSpaces (s.length + 1)
          (collapseNewlines (s.length + 1)
            (removeToEOL (s.length + 1) wroteTrigger
              (removeQuoted
                (applyFooters (s.length + 1)
                  (replaceURLs (s.length + 1) s))))))

/-! ### `extractKeyInfo` -/

/-- The record returned by `extractKeyInfo`. -/
structure KeyInfo where
  dates : List (List Char)
  amounts : List (List Char)
  actionItems : List (List Char)
  names : List (List Char)
  keyPhrases : List (List Char)
deriving DecidableEq

/-- The sentence-splitting class `[.!?\n]`. -/
def isDelim (c : Char) : Bool :=
  c == '.' || c == '!' || c == '?' || c == '\n'

/-- `split(/[.!?\n]+/)`: split on runs of delimiters (fuelled). -/
def splitDelims : Nat → List Char → List (List Char)
  | 0, _ => []
  | fuel + 1, s =>
    match s.dropWhile (fun c => !(isDelim c)) with
    | [] => [s.takeWhile (fun c => !(isDelim c))]
    | rest =>
      s.takeWhile (fun c => !(isDelim c)) ::
        splitDelims fuel (rest.dropWhile isDelim)

/-- The imperative/deadline vocabulary of the action-item filter. -/
def actionKeywordLits : List (List Char) :=
  [str "please", str "kindly", str "required", str "must", str "need to",
   str "action", str "deadline", str "respond", str "reply", str "confirm",
   str "submit", str "complete", str "attend", str "join", str "register",
   str "rsvp"]

/-- `\b(please|...|rsvp)\b` (i). -/
def actionPattern : List RE := [.wordB, .altLit actionKeywordLits, .wordB]

/-- `actionKeywords.test(s)`. -/
def actionTest (s : List Char) : Bool :=
  !(jsMatchAll (reMatcher actionPattern) s).isEmpty

/-- `extractKeyInfo(cleanedBody)`. -/
def extractKeyInfo (cleanedBody : List Char) : KeyInfo :=
  if cleanedBody = [] then ⟨[], [], [], [], []⟩
  else
    let dates := (jsSetDedup (datePatterns.foldl
      (fun acc pat =>
        acc ++ (jsMatchAll (reMatcher pat) cleanedBody).map trimBoth)
      [])).take 5
    let amounts :=
      (jsSetDedup (jsMatchAll (fun _ s => matchAmountAt s) cleanedBody)).take 5
    let sentences :=
      ((splitDelims (cleanedBody.length + 1) cleanedBody).map trimBoth).filter
        (fun s => decide (s.length > 10))
    let actionItems := (sentences.filter actionTest).take 5
    let keyPhrases :=
      ((sentences.filter
          (fun s => decide (s.length > 20) && decide (s.length < 200))).filter
        (fun s => !((str "[link]").isPrefixOf s))).take 3
    ⟨dates, amounts, actionItems, [], keyPhrases⟩

/-! ### `classifyEmail` -/

/-- The headers consumed by the processor (each possibly absent). -/
structure Headers where
  from_ : Option (List Char)
  to_ : Option (List Char)
  subject : Option (List Char)
  date : Option (List Char)
deriving DecidableEq

/-- JS `toLowerCase`. -/
def toLowerStr (s : List Char) : List Char := s.map Char.toLower

/-- Whether `needle` occurs as a contiguous substring of the second list. -/
def hasInfix (needle : List Char) : List Char → Bool
  | [] => needle.isEmpty
  | c :: cs => needle.isPrefixOf (c :: cs) || hasInfix needle cs

/-- A `/k1|k2|.../i.test(s)` on already-lowercased text: some keyword is a
substring. -/
def containsAny (keys : List (List Char)) (s : List Char) : Bool :=
  keys.any (fun k => hasInfix k s)

/-- Rule 1 trigger vocabulary. -/
def promoNewsKws : List (List Char) :=
  [str "noreply", str "no-reply", str "newsletter", str "marketing",
   str "promo", str "offer", str "sale", str "discount", str "deal",
   str "unsubscribe"]

/-- Rule 1 price vocabulary. -/
def priceKws : List (List Char) :=
  [str "off", str "%", str "discount", str "sale", str "deal", str "coupon",
   str "offer", str "price", str "save"]

/-- Rule 2 vocabulary. -/
def securityKws : List (List Char) :=
  [str "alert", str "security", str "verification", str "verify",
   str "password", str "signin", str "login", str "suspicious", str "unusual"]

/-- Rule 3 vocabulary. -/
def billingKws : List (List Char) :=
  [str "invoice", str "payment", str "receipt", str "order",
   str "transaction", str "billing", str "subscription"]

/-- Rule 4 vocabulary. -/
def eventKws : List (List Char) :=
  [str "meeting", str "invite", str "calendar", str "event", str "rsvp",
   str "attend", str "join", str "webinar", str "summit", str "conference"]

/-- Rule 5 vocabulary. -/
def noticeKws : List (List Char) :=
  [str "notification", str "update", str "reminder", str "notice"]

/-- Rule 6 vocabulary. -/
def devKws : List (List Char) :=
  [str "github", str "gitlab", str "jenkins", str "deploy", str "build",
   str "commit", str "pull request", str "merge"]

/-- `` `${from} ${subject} ${body}` `` with every part lower-cased. -/
def combinedText (headers : Headers) (cleanedBody : List Char) : List Char :=
  toLowerStr (headers.from_.getD []) ++ [' '] ++
    toLowerStr (headers.subject.getD []) ++ [' '] ++ toLowerStr cleanedBody

/-- `classifyEmail(headers, cleanedBody)`: ordered rules, first match wins. -/
def classifyEmail (headers : Headers) (cleanedBody : List Char) : List Char :=
  if containsAny promoNewsKws (combinedText headers cleanedBody) then
    (if containsAny priceKws (combinedText headers cleanedBody) then
      str "promotional"
    else str "newsletter")
  else if containsAny securityKws (combinedText headers cleanedBody) then
    str "security"
  else if containsAny billingKws (combinedText headers cleanedBody) then
    str "transactional"
  else if containsAny eventKws (combinedText headers cleanedBody) then
    str "event"
  else if containsAny noticeKws (combinedText headers cleanedBody) then
    str "notification"
  else if containsAny devKws (combinedText headers cleanedBody) then
    str "development"
  else str "personal"

/-! ### `buildDigest` -/

/-- The message shape consumed by `buildDigest`. -/
structure EmailContent where
  headers : Headers
  body : Option (List Char)
  snippet : Option (List Char)
deriving DecidableEq

/-- The pre-cap summary selection of `buildDigest`: key phrases joined with
`". "`, else the first 300 characters of the cleaned body, else
`snippet || 'No readable content'`. -/
def rawSummary (e : EmailContent) : List Char :=
  if (extractKeyInfo
      (cleanEmailBody (some (jsOr e.body (jsOr e.snippet []))))).keyPhrases
      ≠ [] then
    List.intercalate (str ". ")
      (extractKeyInfo
        (cleanEmailBody (some (jsOr e.body (jsOr e.snippet []))))).keyPhrases
  else if cleanEmailBody (some (jsOr e.body (jsOr e.snippet []))) ≠ [] then
    (cleanEmailBody (some (jsOr e.body (jsOr e.snippet [])))).take 300
  else jsOr e.snippet (str "No readable content")

/-- The final trim of the summary: over 400 characters becomes 397 + `...`. -/
def capSummary400 (summary : List Char) : List Char :=
  if summary.length > 400 then summary.take 397 ++ str "..." else summary

/-- `buildDigest(emailContent)`. -/
def buildDigest (e : EmailContent) : Digest :=
  { from_ := jsOr e.headers.from_ (str "Unknown"),
    to_ := jsOr e.headers.to_ [],
    subject := jsOr e.headers.subject (str "No Subject"),
    date := jsOr e.headers.date [],
    type := classifyEmail e.headers
      (cleanEmailBody (some (jsOr e.body (jsOr e.snippet [])))),
    summary := capSummary400 (rawSummary e),
    keyPoints := (extractKeyInfo
      (cleanEmailBody (some (jsOr e.body (jsOr e.snippet []))))).keyPhrases,
    actionItems := (extractKeyInfo
      (cleanEmailBody (some (jsOr e.body (jsOr e.snippet []))))).actionItems,
    dates := (extractKeyInfo
      (cleanEmailBody (some (jsOr e.body (jsOr e.snippet []))))).dates,
    amounts := (extractKeyInfo
      (cleanEmailBody (some (jsOr e.body (jsOr e.snippet []))))).amounts,
    actionRequired := decide ((extractKeyInfo
      (cleanEmailBody (some (jsOr e.body (jsOr e.snippet []))))).actionItems.length > 0),
    fullBodyLength := (jsOr e.body []).length }

/-! ## Claims about the email processor -/

/-- The classifier's ordered rule table: `(trigger, category)` pairs in
precedence order (rule 1 contributes its two outcomes as the first two rows). -/
def classifyRulesList (headers : Headers) (cleanedBody : List Char) :
    List (Bool × List Char) :=
  [(containsAny promoNewsKws (combinedText headers cleanedBody) &&
      containsAny priceKws (combinedText headers cleanedBody),
    str "promotional"),
   (containsAny promoNewsKws (combinedText headers cleanedBody),
    str "newsletter"),
   (containsAny securityKws (combinedText headers cleanedBody),
    str "security"),
   (containsAny billingKws (combinedText headers cleanedBody),
    str "transactional"),
   (containsAny eventKws (combinedText headers cleanedBody), str "event"),
   (containsAny noticeKws (combinedText headers cleanedBody),
    str "notification"),
   (containsAny devKws (combinedText headers cleanedBody),
    str "development")]

/-- First-matching-rule-wins evaluation of a rule table. -/
def firstMatch : List (Bool × List Char) → List Char → List Char
  | [], dflt => dflt
  | r :: rs, dflt => if r.1 then r.2 else firstMatch rs dflt

/-- The spec's reading of the classifier: the ordered rule table evaluated
first-match-wins with default `personal`. -/
def classifyRules (headers : Headers) (cleanedBody : List Char) : List Char :=
  firstMatch (classifyRulesList headers cleanedBody) (str "personal")

/-- The closed 8-category enumeration. -/
def categories : List (List Char) :=
  [str "promotional", str "newsletter", str "security", str "transactional",
   str "event", str "notification", str "development", str "personal"]

theorem firstMatch_mem :
    ∀ (rs : List (Bool × List Char)) (dflt : List Char),
      firstMatch rs dflt ∈ rs.map Prod.snd ++ [dflt] := by
  intro rs
  induction rs with
  | nil => intro dflt; simp [firstMatch]
  | cons r rs ih =>
    intro dflt
    simp only [firstMatch, List.map_cons, List.cons_append]
    by_cases h : r.1 = true
    · rw [if_pos h]
      exact List.mem_cons_self _ _
    · rw [if_neg h]
      exact List.mem_cons_of_mem _ (ih dflt)

theorem firstMatch_all_false :
    ∀ (rs : List (Bool × List Char)) (dflt : List Char),
      (∀ r ∈ rs, r.1 = false) → firstMatch rs dflt = dflt := by
  intro rs
  induction rs with
  | nil => intro dflt _; rfl
  | cons r rs ih =>
    intro dflt h
    have h1 := h r (List.mem_cons_self _ _)
    simp only [firstMatch]
    rw [if_neg (by simp [h1])]
    exact ih dflt (fun q hq => h q (List.mem_cons_of_mem _ hq))

/-- C2: `classifyEmail` agrees with the spec's ordered first-match-wins rule
table over the lower-cased `from + subject + body` concatenation, always lands
in the closed 8-category enumeration, and yields `personal` whenever no rule
matches. -/
theorem C2_classify_total (headers : Headers) (cleanedBody : List Char) :
    classifyEmail headers cleanedBody = classifyRules headers cleanedBody ∧
    classifyEmail headers cleanedBody ∈ categories ∧
    ((∀ r ∈ classifyRulesList headers cleanedBody, r.1 = false) →
      classifyEmail headers cleanedBody = str "personal") := by
  have heq : classifyEmail headers cleanedBody =
      classifyRules headers cleanedBody := by
    unfold classifyEmail classifyRules classifyRulesList
    by_cases h1 :
        containsAny promoNewsKws (combinedText headers cleanedBody) = true <;>
      by_cases h2 :
        containsAny priceKws (combinedText headers cleanedBody) = true <;>
      simp [firstMatch, h1, h2]
  refine ⟨heq, ?_, ?_⟩
  · rw [heq]
    have h := firstMatch_mem (classifyRulesList headers cleanedBody)
      (str "personal")
    simpa [classifyRulesList, categories] using h
  · intro hall
    rw [heq]
    exact firstMatch_all_false _ _ hall

/-- C2 witness: the empty input matches no rule and classifies as `personal`. -/
theorem C2_classify_total_witness :
    classifyEmail ⟨none, none, none, none⟩ [] = str "personal" :=
  (C2_classify_total ⟨none, none, none, none⟩ []).2.2 (by decide)

/-- C3: every digest's summary is at most 400 characters (a longer raw summary
is cut to its first 397 characters plus `...`), and `actionRequired` holds
exactly when `actionItems` is non-empty. -/
theorem C3_digest_summary_bound (e : EmailContent) :
    (buildDigest e).summary.length ≤ 400 ∧
    ((buildDigest e).actionRequired = true ↔ (buildDigest e).actionItems ≠ []) ∧
    ((rawSummary e).length > 400 →
      (buildDigest e).summary = (rawSummary e).take 397 ++ str "...") := by
  have hsum : (buildDigest e).summary = capSummary400 (rawSummary e) := rfl
  refine ⟨?_, ?_, ?_⟩
  · rw [hsum]
    unfold capSummary400
    by_cases h : (rawSummary e).length > 400
    · rw [if_pos h]
      have he : (str "...").length = 3 := rfl
      simp only [List.length_append, List.length_take, he]
      omega
    · rw [if_neg h]
      omega
  · have har : (buildDigest e).actionRequired =
        decide ((extractKeyInfo (cleanEmailBody
          (some (jsOr e.body (jsOr e.snippet []))))).actionItems.length > 0) :=
      rfl
    have hai : (buildDigest e).actionItems =
        (extractKeyInfo (cleanEmailBody
          (some (jsOr e.body (jsOr e.snippet []))))).actionItems := rfl
    rw [har, hai]
    simp [List.length_pos]
  · intro h
    rw [hsum]
    unfold capSummary400
    rw [if_pos h]

/-- A message with no body and a 402-character quoted snippet: cleaning leaves
nothing, so the raw snippet becomes the summary and must be truncated. -/
def longSnippetEmail : EmailContent :=
  ⟨⟨none, none, none, none⟩, none, some ('>' :: List.replicate 401 'a')⟩

/-- C3 witness: an over-long raw summary is truncated to 397 + `...`. -/
theorem C3_digest_summary_bound_witness :
    (buildDigest longSnippetEmail).summary =
      (rawSummary longSnippetEmail).take 397 ++ str "..." :=
  (C3_digest_summary_bound longSnippetEmail).2.2 (by decide)

/-- C7: the summary is selected by preference order — key phrases joined with
`". "`, else the first 300 characters of the cleaned body, else the snippet
when it is present and non-empty, else the literal `No readable content` — and
the 400-character cap is applied afterward in every branch (`jsOr` captures
JS falsiness: an absent or empty snippet falls through to the literal). -/
theorem C7_summary_policy (e : EmailContent) :
    (buildDigest e).summary = capSummary400 (rawSummary e) ∧
    ((extractKeyInfo (cleanEmailBody
        (some (jsOr e.body (jsOr e.snippet []))))).keyPhrases ≠ [] →
      rawSummary e = List.intercalate (str ". ")
        (extractKeyInfo (cleanEmailBody
          (some (jsOr e.body (jsOr e.snippet []))))).keyPhrases) ∧
    ((extractKeyInfo (cleanEmailBody
        (some (jsOr e.body (jsOr e.snippet []))))).keyPhrases = [] →
      cleanEmailBody (some (jsOr e.body (jsOr e.snippet []))) ≠ [] →
      rawSummary e =
        (cleanEmailBody (some (jsOr e.body (jsOr e.snippet [])))).take 300) ∧
    ((extractKeyInfo (cleanEmailBody
        (some (jsOr e.body (jsOr e.snippet []))))).keyPhrases = [] →
      cleanEmailBody (some (jsOr e.body (jsOr e.snippet []))) = [] →
      rawSummary e = jsOr e.snippet (str "No readable content")) := by
  refine ⟨rfl, ?_, ?_, ?_⟩
  · intro h
    unfold rawSummary
    rw [if_pos h]
  · intro h1 h2
    unfold rawSummary
    rw [if_neg (by simp [h1]), if_pos h2]
  · intro h1 h2
    unfold rawSummary
    rw [if_neg (by simp [h1]), if_neg (by simp [h2])]

/-- A message with nothing readable at all. -/
def noContentEmail : EmailContent := ⟨⟨none, none, none, none⟩, none, none⟩

/-- A message whose cleaned body is non-empty but yields no key phrases. -/
def shortBodyEmail : EmailContent :=
  ⟨⟨none, none, none, none⟩, some (str "short note"), none⟩

/-- A message with one substantive sentence (a key phrase). -/
def phraseEmail : EmailContent :=
  ⟨⟨none, none, none, none⟩, some (str "This is a reasonably long sentence"),
   none⟩

/-- C7 witness: one concrete message per selection branch. -/
theorem C7_summary_policy_witness :
    rawSummary noContentEmail = str "No readable content" ∧
    rawSummary shortBodyEmail = str "short note" ∧
    rawSummary phraseEmail = str "This is a reasonably long sentence" := by
  refine ⟨?_, ?_, ?_⟩
  · have h := (C7_summary_policy noContentEmail).2.2.2 (by decide) (by decide)
    rw [h]
    decide
  · have h := (C7_summary_policy shortBodyEmail).2.2.1 (by decide) (by decide)
    rw [h]
    decide
  · have h := (C7_summary_policy phraseEmail).2.1 (by decide)
    rw [h]
    decide

/-- Index of the first occurrence of `needle` as a substring of the first
argument (its length when absent). -/
def firstInfixIdx : List Char → List Char → Nat
  | [], _ => 0
  | c :: t, needle =>
    if needle.isPrefixOf (c :: t) then 0 else firstInfixIdx t needle + 1

/-- A body whose weekday match precedes its numeric-date match in the text. -/
def dateOrderBody : List Char := str "monday 3/15/2025"

/-- C6 counterexample: on `"monday 3/15/2025"` the extractor returns the
numeric date before the weekday — pattern-family order, not the order of first
occurrence in the text — so the dates are not sorted by first occurrence. -/
theorem C6_dates_order_counterexample :
    (extractKeyInfo dateOrderBody).dates = [str "3/15/2025", str "monday"] ∧
    ¬ ((extractKeyInfo dateOrderBody).dates.Pairwise
        (fun x y => firstInfixIdx dateOrderBody x <
          firstInfixIdx dateOrderBody y)) := by
  refine ⟨by decide, ?_⟩
  intro h
  have h1 : (extractKeyInfo dateOrderBody).dates =
      [str "3/15/2025", str "monday"] := by decide
  rw [h1] at h
  have h2 := List.rel_of_pairwise_cons h (List.mem_singleton.2 rfl)
  revert h2
  decide

/-- C6 amended: for every cleaned body the extracted dates are at most five,
duplicate-free, and are exactly the first five first-occurrence-deduplicated
entries of the five pattern families' match lists concatenated in family
order (each match trimmed) — ordered family-major, then by match position
within a family. -/
theorem C6_dates_cap_dedup (cleanedBody : List Char) :
    (extractKeyInfo cleanedBody).dates.length ≤ 5 ∧
    (extractKeyInfo cleanedBody).dates.Nodup ∧
    (extractKeyInfo cleanedBody).dates =
      (jsSetDedup (datePatterns.foldl
        (fun acc pat =>
          acc ++ (jsMatchAll (reMatcher pat) cleanedBody).map trimBoth)
        [])).take 5 := by
  by_cases h : cleanedBody = []
  · subst h
    exact ⟨by decide, by decide, by decide⟩
  · have hd : (extractKeyInfo cleanedBody).dates =
        (jsSetDedup (datePatterns.foldl
          (fun acc pat =>
            acc ++ (jsMatchAll (reMatcher pat) cleanedBody).map trimBoth)
          [])).take 5 := by
      unfold extractKeyInfo
      rw [if_neg h]
    refine ⟨?_, ?_, hd⟩
    · rw [hd]
      exact List.length_take_le _ _
    · rw [hd]
      exact ((jsSetDedup_nodup _).sublist (List.take_sublist _ _))

/-- C8 (a code bug on the quoted-line property): quoted-reply lines are blanked
before the final trim, but the trim can strip leading whitespace and re-expose
a quoted line at the start of the output — `" >hello"` cleans to `">hello"`,
whose line starts with `>`.  The absent/empty input halves of the claim hold. -/
theorem C8_clean_exposes_quoted_line :
    cleanEmailBody (some (str " >hello")) = str ">hello" ∧
    cleanEmailBody none = [] ∧
    cleanEmailBody (some []) = [] := by
  refine ⟨by decide, rfl, by decide⟩
